import Mathlib

/-!
Verification of the `infosphere` content-management backend
(`backend/app/services.py`, class `ContentService`).

The Python code is shallowly embedded:
* the filesystem is a finite tree `FSTree` (directories hold a `listdir`-ordered
  list of named entries); paths are lists of path segments relative to the
  content root;
* `pathlib` joins parse their string argument by splitting on `/` and dropping
  empty and `.` segments (`pyParseSegments`);
* the two JSON side-data stores (comments, summaries) are association lists,
  which model Python dicts: lookup by key, assignment updates in place or
  appends a fresh key at the end (insertion order);
* fallible I/O (a file read raising) is modelled by a boolean oracle on paths;
  nondeterministic values (`uuid4`, `datetime.now`) are explicit parameters;
* Python `dict` literals used for import statistics are association lists of
  `String × StatVal`, so that which keys a stats object carries is observable.
-/

/-! ## Python string primitives -/

/-- Characters Python `str.splitlines` treats as line boundaries
(the ASCII ones; `\r\n` is handled as a single boundary in `pySplitlinesAux`). -/
def isLineBoundary (c : Char) : Bool :=
  c = '\n' || c = '\r' || c = '\x0b' || c = '\x0c' ||
  c = Char.ofNat 28 || c = Char.ofNat 29 || c = Char.ofNat 30 ||
  c = Char.ofNat 133 || c = Char.ofNat 8232 || c = Char.ofNat 8233

/-- Helper for `pySplitlines`: accumulates the current line (reversed). -/
def pySplitlinesAux : List Char → List Char → List String
  | [], acc => if acc.isEmpty then [] else [String.mk acc.reverse]
  | '\r' :: '\n' :: rest, acc => String.mk acc.reverse :: pySplitlinesAux rest []
  | c :: rest, acc =>
    if isLineBoundary c then String.mk acc.reverse :: pySplitlinesAux rest []
    else pySplitlinesAux rest (c :: acc)

/-- Python `str.splitlines()`: `""` gives `[]`, a trailing newline adds no
trailing empty line. -/
def pySplitlines (s : String) : List String :=
  pySplitlinesAux s.data []

/-- The characters Python `str.isspace` accepts (and `str.strip()` with no
argument strips): the ASCII whitespace plus `\x1c`-`\x1f`, NEL, NBSP and the
Unicode space separators. -/
def pyWhitespace : List Char :=
  ['\t', '\n', '\x0b', '\x0c', '\r', Char.ofNat 28, Char.ofNat 29,
   Char.ofNat 30, Char.ofNat 31, ' ', Char.ofNat 133, Char.ofNat 160,
   Char.ofNat 0x1680, Char.ofNat 0x2000, Char.ofNat 0x2001, Char.ofNat 0x2002,
   Char.ofNat 0x2003, Char.ofNat 0x2004, Char.ofNat 0x2005, Char.ofNat 0x2006,
   Char.ofNat 0x2007, Char.ofNat 0x2008, Char.ofNat 0x2009, Char.ofNat 0x200a,
   Char.ofNat 0x2028, Char.ofNat 0x2029, Char.ofNat 0x202f, Char.ofNat 0x205f,
   Char.ofNat 0x3000]

/-- Python `str.isspace` on a single character. -/
def pyIsSpace (c : Char) : Bool :=
  pyWhitespace.contains c

/-- Python `str.strip()` (whitespace from both ends). -/
def pyStrip (s : String) : String :=
  String.mk (((s.data.dropWhile pyIsSpace).reverse.dropWhile pyIsSpace).reverse)

/-- Python `str.lstrip('#')`. -/
def pyLstripHash (s : String) : String :=
  String.mk (s.data.dropWhile (· = '#'))

/-- Helper for `pySplitSlash`: accumulates the current piece (reversed). -/
def splitOnSlashAux : List Char → List Char → List String
  | [], acc => [String.mk acc.reverse]
  | '/' :: rest, acc => String.mk acc.reverse :: splitOnSlashAux rest []
  | c :: rest, acc => splitOnSlashAux rest (c :: acc)

/-- Python `s.split('/')` (`"".split('/') == ['']`). -/
def pySplitSlash (s : String) : List String :=
  splitOnSlashAux s.data []

/-- Helper for `pyRemoveMd`. -/
def removeMdAux : List Char → List Char
  | '.' :: 'm' :: 'd' :: rest => removeMdAux rest
  | c :: rest => c :: removeMdAux rest
  | [] => []

/-- Python `s.replace('.md', '')`: drop every (non-overlapping, left-to-right)
occurrence of `.md`. -/
def pyRemoveMd (s : String) : String :=
  String.mk (removeMdAux s.data)

/-- Python `s.endswith(t)` (kernel-reducible form). -/
def strEndsWith (s t : String) : Bool :=
  t.data.isSuffixOf s.data

/-- Python `s.startswith(t)` (kernel-reducible form). -/
def strStartsWith (s t : String) : Bool :=
  t.data.isPrefixOf s.data

/-- Python `article_id.rsplit('/', 1)`: `some (before, after)` split at the
last `/`, or `none` when the string has no `/` (the code then sees a
length-1 list). -/
def pyRsplitLastSlash (s : String) : Option (String × String) :=
  match s.data.reverse.span (· ≠ '/') with
  | (_, []) => none
  | (suffix, _ :: prefixRev) => some (String.mk prefixRev.reverse, String.mk suffix.reverse)

/-- `pathlib` parsing of a relative path string: split on `/`, drop empty
and `.` segments. -/
def pyParseSegments (s : String) : List String :=
  (pySplitSlash s).filter (fun seg => seg ≠ "" && seg ≠ ".")

/-- Python `os.path.basename`: everything after the last `/`. -/
def pyBasename (s : String) : String :=
  match pyRsplitLastSlash s with
  | none => s
  | some (_, b) => b

/-! ## Filesystem model -/

/-- A filesystem subtree: a file with text content, or a directory with a
`listdir`-ordered list of named entries. -/
inductive FSTree where
  | file (content : String)
  | dir (entries : List (String × FSTree))

/-- `os.path.isdir` on an entry already in hand. -/
def FSTree.isDirNode : FSTree → Bool
  | .file _ => false
  | .dir _ => true

/-- First entry with the given name (directory entries have unique names in a
real filesystem; lookup takes the first). -/
def findEntry : List (String × FSTree) → String → Option FSTree
  | [], _ => none
  | (n, t) :: rest, name => if n = name then some t else findEntry rest name

/-- Resolve a segment path from a subtree. -/
def lookupPath : FSTree → List String → Option FSTree
  | t, [] => some t
  | .file _, _ :: _ => none
  | .dir es, n :: rest =>
    match findEntry es n with
    | none => none
    | some t => lookupPath t rest

/-- Content of the file at `p`, or `none` when `p` is absent or a directory. -/
def readFileAt (fs : FSTree) (p : List String) : Option String :=
  match lookupPath fs p with
  | some (.file c) => some c
  | _ => none

/-- Python `path.exists() and path.is_file()`. -/
def isFile (fs : FSTree) (p : List String) : Bool :=
  (readFileAt fs p).isSome

/-! ## Side-data store (comments.json / summaries.json) -/

/-- A stored comment (`Comment.dict()` as persisted in `comments.json`). -/
structure CommentRec where
  id : String
  article_id : String
  author : String
  content : String
  created_at : String
deriving Repr, DecidableEq

/-- A stored summary record in `summaries.json`. -/
structure SummaryRec where
  summary : String
  updated_at : String
deriving Repr, DecidableEq

/-- Python dict lookup `d.get(k)` on an association list. -/
def alookup {α : Type} : List (String × α) → String → Option α
  | [], _ => none
  | (k, v) :: rest, key => if k = key then some v else alookup rest key

/-- Python dict assignment `d[k] = v`: update in place if the key exists
(keeping its position), else append at the end (insertion order). -/
def aset {α : Type} : List (String × α) → String → α → List (String × α)
  | [], key, v => [(key, v)]
  | (k, w) :: rest, key, v =>
    if k = key then (key, v) :: rest else (k, w) :: aset rest key v

/-- The two JSON side-data files, as loaded mappings. -/
structure SideState where
  comments : List (String × List CommentRec)
  summaries : List (String × SummaryRec)
deriving Repr, DecidableEq

/-- `ContentService.get_comments` (the stored list; `comments.get(id, [])`). -/
def get_comments (st : SideState) (article_id : String) : List CommentRec :=
  (alookup st.comments article_id).getD []

/-- `ContentService.add_comment`. `newId` models `uuid.uuid4()` and `now`
models `datetime.now()`; returns the created comment and the new store state. -/
def add_comment (st : SideState) (article_id author content newId now : String) :
    CommentRec × SideState :=
  let comment : CommentRec :=
    { id := newId, article_id := article_id, author := author,
      content := content, created_at := now }
  let current := (alookup st.comments article_id).getD []
  (comment, { st with comments := aset st.comments article_id (current ++ [comment]) })

/-- `ContentService.save_summary`. -/
def save_summary (st : SideState) (article_id summary now : String) : SideState :=
  { st with summaries := aset st.summaries article_id ⟨summary, now⟩ }

/-! ## get_article -/

/-- The `Article` model returned by `get_article` (`path` is the resolved
segment path relative to the content root). -/
structure Article where
  id : String
  title : String
  category_id : String
  content : String
  summary : Option String
  comment_count : Nat
  path : List String
deriving Repr, DecidableEq

/-- Title line extraction `content.splitlines()[0].lstrip('#').strip()`. -/
def pyTitleLine (content : String) : String :=
  pyStrip (pyLstripHash ((pySplitlines content).headD ""))

/-- The primary path `content_dir / category_id / filename` built by
`get_article` after `rsplit('/', 1)`; `[]` when the id has no `/`. -/
def primaryPathOf (article_id : String) : List String :=
  match pyRsplitLastSlash article_id with
  | none => []
  | some (category_id, filename) => pyParseSegments category_id ++ pyParseSegments filename

/-- The fallback path `content_dir / article_id` tried when the primary path
is not an existing file. -/
def altPathOf (article_id : String) : List String :=
  pyParseSegments article_id

/-- `ContentService.get_article`. `fs` is the content-root tree, `st` the
side-data stores, `ro p = true` models the read of file `p` raising. -/
def get_article (fs : FSTree) (st : SideState) (ro : List String → Bool)
    (article_id : String) : Option Article :=
  match pyRsplitLastSlash article_id with
  | none => none
  | some (category_id, filename) =>
    let filePath := pyParseSegments category_id ++ pyParseSegments filename
    let chosen : Option (List String) :=
      if isFile fs filePath then some filePath
      else if isFile fs (pyParseSegments article_id) then some (pyParseSegments article_id)
      else none
    match chosen with
    | none => none
    | some p =>
      if ro p then none
      else
        match readFileAt fs p with
        | none => none
        | some content =>
          some { id := article_id
                 title := if content = "" then filename else pyTitleLine content
                 category_id := category_id
                 content := content
                 summary := (alookup st.summaries article_id).map (fun r => r.summary)
                 comment_count := (get_comments st article_id).length
                 path := p }

/-! ## get_categories -/

/-- The `Category` model (`path` is the segment path relative to the content
root, standing for `str(item_path)`). -/
structure Category where
  id : String
  name : String
  path : List String
deriving Repr, DecidableEq

/-- The `has_content` probe body of `get_categories`: an entry counts when its
name ends in `.md` or it is a directory (`os.path.isdir`); hidden entries are
NOT filtered here. -/
def entryHasContent : String × FSTree → Bool
  | (name, t) => strEndsWith name ".md" || t.isDirNode

/-- The inner `process_directory` of `ContentService.get_categories`:
for each `listdir` entry that is a non-hidden directory whose listing passes
the `has_content` probe, emit a `Category` and recurse. -/
def processDirectory : List String → List (String × FSTree) → Option String → List Category
  | _, [], _ => []
  | base, (_, .file _) :: rest, parentId => processDirectory base rest parentId
  | base, (name, .dir sub) :: rest, parentId =>
    (if strStartsWith name "." then []
     else if sub.any entryHasContent then
       let categoryId := match parentId with
         | none => name
         | some p => p ++ "/" ++ name
       { id := categoryId, name := name, path := base ++ [name] }
         :: processDirectory (base ++ [name]) sub (some categoryId)
     else []) ++ processDirectory base rest parentId

/-- `ContentService.get_categories`, on the content-root listing. -/
def get_categories (root : List (String × FSTree)) : List Category :=
  processDirectory [] root none

/-- Spec-style category enumeration, parametric in the qualification probe a
directory's listing must pass. Written from the spec sentence "a subdirectory
qualifies as a category if it directly contains at least one markdown file OR
at least one subdirectory", with the probe left as a parameter so the spec's
reading (hidden subdirectories skipped) and the code's reading (hidden
subdirectories count) can both be stated. -/
def specCategories (probe : List (String × FSTree) → Bool) :
    List String → List (String × FSTree) → Option String → List Category
  | _, [], _ => []
  | base, (name, t) :: rest, parentId =>
    (match t with
     | .file _ => []
     | .dir sub =>
       if !strStartsWith name "." && probe sub then
         let categoryId := match parentId with
           | none => name
           | some p => p ++ "/" ++ name
         { id := categoryId, name := name, path := base ++ [name] }
           :: specCategories probe (base ++ [name]) sub (some categoryId)
       else []) ++ specCategories probe base rest parentId

/-- Modelled from the spec: the claim's probe — a markdown file, or a
NON-HIDDEN subdirectory ("a directory whose only entry is a hidden
subdirectory is excluded"). -/
def specProbeClaim (entries : List (String × FSTree)) : Bool :=
  entries.any fun e => strEndsWith e.1 ".md" || (e.2.isDirNode && !strStartsWith e.1 ".")

/-- The probe the code actually implements: a markdown-named entry, or any
subdirectory, hidden or not. -/
def specProbeCode (entries : List (String × FSTree)) : Bool :=
  entries.any entryHasContent

/-! ## get_articles_by_category -/

/-- The `ArticleSummary` model (no `content` field). -/
structure ArticleSummary where
  id : String
  title : String
  category_id : String
  summary : Option String
  comment_count : Nat
  path : List String
deriving Repr, DecidableEq

/-- The attempted read of an entry inside the listing loop: fails when the
read oracle says so or when the `.md`-named entry is in fact a directory
(`IsADirectoryError` from `open`). -/
def readEntry (ro : List String → Bool) (p : List String) : FSTree → Option String
  | .file c => if ro p then none else some c
  | .dir _ => none

/-- The inner `process_directory` of `ContentService.get_articles_by_category`:
entries named `*.md` become summaries (title from the first line, falling back
to the raw name on empty content and to the name with `.md` removed on a read
error); other entries that are non-hidden directories are recursed into. -/
def listArticles (st : SideState) (ro : List String → Bool) :
    List (String × FSTree) → List String → String → List ArticleSummary
  | [], _, _ => []
  | (item, t) :: rest, dirPath, currentCategory =>
    (if strEndsWith item ".md" then
       let filePath := dirPath ++ [item]
       let articleId := currentCategory ++ "/" ++ item
       let title :=
         match readEntry ro filePath t with
         | some content => if content = "" then item else pyTitleLine content
         | none => pyRemoveMd item
       [{ id := articleId
          title := title
          category_id := currentCategory
          summary := (alookup st.summaries articleId).map (fun r => r.summary)
          comment_count := (get_comments st articleId).length
          path := filePath }]
     else
       match t with
       | .file _ => []
       | .dir sub =>
         if strStartsWith item "." then []
         else listArticles st ro sub (dirPath ++ [item])
                (currentCategory ++ "/" ++ item))
    ++ listArticles st ro rest dirPath currentCategory

/-- `ContentService.get_articles_by_category`: empty when the category path is
not an existing directory. -/
def get_articles_by_category (fs : FSTree) (st : SideState) (ro : List String → Bool)
    (category_id : String) : List ArticleSummary :=
  let segs := pyParseSegments category_id
  match lookupPath fs segs with
  | some (.dir es) => listArticles st ro es segs category_id
  | _ => []

/-! ## Import statistics as Python dicts -/

/-- A value in a stats dict: an int counter or a list of strings. -/
inductive StatVal where
  | nat (n : Nat)
  | strs (l : List String)
deriving Repr, DecidableEq

/-- A stats dict, e.g. `{"categories": 0, "articles": 0, ...}`. -/
abbrev Stats := List (String × StatVal)

/-- Read an int counter (`0` if absent or of the wrong shape; the code only
reads keys it created). -/
def getNat (stats : Stats) (k : String) : Nat :=
  match alookup stats k with
  | some (.nat n) => n
  | _ => 0

/-- Read a string-list value. -/
def getStrs (stats : Stats) (k : String) : List String :=
  match alookup stats k with
  | some (.strs l) => l
  | _ => []

/-- `stats[k] += 1`. -/
def incKey (stats : Stats) (k : String) : Stats :=
  aset stats k (.nat (getNat stats k + 1))

/-- `stats[k].append(s)`. -/
def pushKey (stats : Stats) (k : String) (s : String) : Stats :=
  aset stats k (.strs (getStrs stats k ++ [s]))

/-- The keys of a stats dict, in insertion order. -/
def statKeys (stats : Stats) : List String :=
  stats.map Prod.fst

/-- An import outcome: `{"success": True, "stats": ...}` or
`{"success": False, "message": ...}`. -/
inductive ImportResult where
  | ok (stats : Stats)
  | err (message : String)
deriving Repr, DecidableEq

/-- Whether the result has `success = True`. -/
def ImportResult.isOk : ImportResult → Bool
  | .ok _ => true
  | .err _ => false

/-! ## import_from_directory -/

/-- All proper non-empty prefixes of a segment path, shortest first. -/
def prefixesOf (p : List String) : List (List String) :=
  (List.range p.length).map (fun i => p.take (i + 1))

/-- `path.mkdir(parents=True, exist_ok=True)` on the set of existing
directories (segment paths relative to the content root; `[]`, the root
itself, always exists). -/
def mkdirParents (dirs : List (List String)) (p : List String) : List (List String) :=
  (prefixesOf p).foldl (fun ds q => if ds.contains q then ds else q :: ds) dirs

/-- `path.exists()` for a directory path (the content root `[]` exists). -/
def dirExists (dirs : List (List String)) (p : List String) : Bool :=
  p.isEmpty || dirs.contains p

mutual

/-- The `os.walk`-driven markdown scan of `import_from_directory`: for each
directory (top-down, the source root first), the `.md`-named non-directory
entries in `listdir` order, paired with the directory's path relative to the
source root (`none` stands for `os.path.relpath == '.'`). Hidden directories
are not skipped by `os.walk`. Only the data the import loop uses is kept:
the relative path and the file's basename. -/
def walkMd : List (String × FSTree) → Option String → List (Option String × String)
  | entries, rel =>
    (entries.filterMap fun e =>
      if !e.2.isDirNode && strEndsWith e.1 ".md" then some (rel, e.1) else none)
    ++ walkMdSub entries rel

/-- The recursive descent of the scan into subdirectories, in `listdir`
order. -/
def walkMdSub : List (String × FSTree) → Option String → List (Option String × String)
  | [], _ => []
  | (_, .file _) :: rest, rel => walkMdSub rest rel
  | (n, .dir sub) :: rest, rel =>
    walkMd sub (some (match rel with | none => n | some r => r ++ "/" ++ n))
    ++ walkMdSub rest rel

end

/-- Mutable state threaded through the per-file loop of
`import_from_directory`. -/
structure DirImportSt where
  stats : Stats
  created : List String
  dirs : List (List String)
deriving Repr, DecidableEq

/-- One iteration of the per-file loop of `import_from_directory`
(lines 353-384): derive the category, create its directory if absent
(tracking first-time top-level creations), then copy; `copyFail i` models
`shutil.copy2` raising for the `i`-th file, which the `except` swallows. -/
def dirImportStep (sourceName : String) (copyFail : Nat → Bool)
    (s : DirImportSt) (relName : Option String × String) (i : Nat) : DirImportSt :=
  let category := match relName.1 with
    | none => sourceName
    | some r => r
  let categorySegs := pyParseSegments category
  let s1 :=
    if dirExists s.dirs categorySegs then s
    else
      let dirs2 := mkdirParents s.dirs categorySegs
      let topLevel := ((pySplitSlash category).headD "")
      if s.created.contains topLevel then { s with dirs := dirs2 }
      else
        { stats := pushKey (incKey s.stats "categories") "categories_created" topLevel
          created := s.created ++ [topLevel]
          dirs := dirs2 }
  if copyFail i then s1
  else { s1 with stats := incKey s1.stats "articles" }

/-- The per-file loop of `import_from_directory` over the scanned files. -/
def dirImportLoop (sourceName : String) (copyFail : Nat → Bool) :
    List (Option String × String) → Nat → DirImportSt → DirImportSt
  | [], _, s => s
  | f :: rest, i, s => dirImportLoop sourceName copyFail rest (i + 1)
      (dirImportStep sourceName copyFail s f i)

/-- The stats dict literal of `import_from_directory` (line 335). -/
def dirInitStats : Stats :=
  [("categories", .nat 0), ("articles", .nat 0), ("categories_created", .strs [])]

/-- `ContentService.import_from_directory`. `sourceExists` models the
`source_dir.exists() and source_dir.is_dir()` pre-flight check,
`sourceEntries` the source tree's root listing, `sourceName` its basename,
`contentRootOk` whether the content root exists or can be created, and
`initDirs` the directories already present under the content root. -/
def import_from_directory (sourceExists : Bool) (sourceEntries : List (String × FSTree))
    (sourceName : String) (contentRootOk : Bool) (initDirs : List (List String))
    (copyFail : Nat → Bool) : ImportResult :=
  if !sourceExists then .err "directory not found"
  else if !contentRootOk then .err "cannot create content directory"
  else
    let mdFiles := walkMd sourceEntries none
    if mdFiles.isEmpty then .err "no markdown files found"
    else
      let final := dirImportLoop sourceName copyFail mdFiles 0
        ⟨dirInitStats, [], initDirs⟩
      .ok final.stats

/-! ## import_from_uploads -/

/-- An uploaded file: its client-supplied name and its bytes (as text). -/
structure UploadFile where
  filename : String
  content : String
deriving Repr, DecidableEq

/-- The per-file outcome dicts of `process_file`:
`{"success": True, "created_categories": ..., "summary_generated": ...}`,
`{"success": False, "reason": "no_category"}`, or
`{"success": False, "error": ..., "file": ...}`. -/
inductive UpFileRes where
  | placed (createdCats : List String) (summaryGenerated : Bool)
  | noCategory
  | failed
deriving Repr, DecidableEq

/-- Whether a per-file result has `success = True`. -/
def UpFileRes.isPlaced : UpFileRes → Bool
  | .placed _ _ => true
  | _ => false

/-- The category-directory creation loop of `process_file` (lines 447-455):
walk the `/`-split parts, creating each missing level and recording the part
in `created_cats` only for the first level (`i == 0`). Returns the final
target directory path, the new directory set, and the recorded creations. -/
def mkCategoryChain : List String → List String → Nat → List (List String) →
    List String × List (List String) × List String
  | [], path, _, dirs => (path, dirs, [])
  | part :: rest, path, i, dirs =>
    let path2 := path ++ pyParseSegments part
    if dirExists dirs path2 then mkCategoryChain rest path2 (i + 1) dirs
    else
      let r := mkCategoryChain rest path2 (i + 1) (mkdirParents dirs path2)
      (r.1, r.2.1, (if i = 0 then [part] else []) ++ r.2.2)

/-- `process_file` (lines 427-507), sequentially: missing `category_map` entry
gives the soft `no_category` outcome; otherwise the category chain is created,
the bytes written (`writeFail i` models the read/write raising, caught by the
outer `except` → hard failure), and a summary is attempted (`sumFail i` models
the summarizer raising, caught → the file still counts, without a summary). -/
def processUpload (categories : List (String × String)) (writeFail sumFail : Nat → Bool)
    (summarize : String → String) (now : String)
    (f : UploadFile) (i : Nat) (dirs : List (List String)) (st : SideState) :
    UpFileRes × List (List String) × SideState :=
  match alookup categories f.filename with
  | none => (.noCategory, dirs, st)
  | some category =>
    let parts := pySplitSlash category
    let mk := mkCategoryChain parts [] 0 dirs
    let filename := pyBasename f.filename
    if writeFail i then (.failed, mk.2.1, st)
    else
      let articleId := category ++ "/" ++ filename
      if sumFail i then (.placed mk.2.2 false, mk.2.1, st)
      else
        (.placed mk.2.2 true, mk.2.1,
         save_summary st articleId (summarize f.content) now)

/-- The batched processing of `import_from_uploads` (lines 513-527). Batches
of `BATCH_SIZE` are drained in order and `asyncio.gather` returns results in
input order, so the result list is in input order; the per-file state effects
are modelled sequentially in that order (the admission-gate interleaving is a
concurrency property outside this embedding). -/
def uploadsLoop (categories : List (String × String)) (writeFail sumFail : Nat → Bool)
    (summarize : String → String) (now : String) :
    List UploadFile → Nat → List (List String) → SideState →
    List UpFileRes × List (List String) × SideState
  | [], _, dirs, st => ([], dirs, st)
  | f :: rest, i, dirs, st =>
    let pr := processUpload categories writeFail sumFail summarize now f i dirs st
    let rec2 := uploadsLoop categories writeFail sumFail summarize now rest (i + 1) pr.2.1 pr.2.2
    (pr.1 :: rec2.1, rec2.2.1, rec2.2.2)

/-- The stats dict literal of `import_from_uploads` (line 416). -/
def upInitStats : Stats :=
  [("categories", .nat 0), ("articles", .nat 0), ("categories_created", .strs []),
   ("errors", .nat 0), ("summaries_generated", .nat 0)]

/-- The result-aggregation loop of `import_from_uploads` (lines 530-548):
a successful result counts as an article (plus deduplicated top-level category
creations and, when flagged, a generated summary); EVERY non-successful result
increments `errors`. -/
def aggregateUploads : List UpFileRes → Stats → List String → Stats
  | [], stats, _ => stats
  | r :: rest, stats, created =>
    match r with
    | .placed cats summaryGenerated =>
      let stats1 := incKey stats "articles"
      let folded := cats.foldl
        (fun acc c =>
          if acc.2.contains c then acc
          else (pushKey (incKey acc.1 "categories") "categories_created" c, acc.2 ++ [c]))
        (stats1, created)
      let stats3 := if summaryGenerated then incKey folded.1 "summaries_generated" else folded.1
      aggregateUploads rest stats3 folded.2
    | _ => aggregateUploads rest (incKey stats "errors") created

/-- `ContentService.import_from_uploads`. -/
def import_from_uploads (contentRootOk : Bool) (files : List UploadFile)
    (categories : List (String × String)) (writeFail sumFail : Nat → Bool)
    (summarize : String → String) (now : String) (initDirs : List (List String))
    (initSide : SideState) : ImportResult :=
  if !contentRootOk then .err "cannot create content directory"
  else
    let results := (uploadsLoop categories writeFail sumFail summarize now files 0 initDirs initSide).1
    let stats := aggregateUploads results upInitStats []
    if getNat stats "articles" = 0 then .err "no files imported"
    else .ok stats

/-! ## Helper lemmas about the dict operations -/

theorem alookup_aset_self {α : Type} (l : List (String × α)) (k : String) (v : α) :
    alookup (aset l k v) k = some v := by
  induction l with
  | nil => simp [aset, alookup]
  | cons hd tl ih =>
    obtain ⟨k', w⟩ := hd
    by_cases h : k' = k <;> simp [aset, alookup, h, ih]

theorem alookup_aset_ne {α : Type} (l : List (String × α)) (k k' : String) (v : α)
    (h : k' ≠ k) : alookup (aset l k' v) k = alookup l k := by
  induction l with
  | nil => simp [aset, alookup, h]
  | cons hd tl ih =>
    obtain ⟨k0, w⟩ := hd
    by_cases h0 : k0 = k'
    · subst h0
      simp [aset, alookup, h]
    · simp only [aset, if_neg h0]
      by_cases h1 : k0 = k <;> simp [alookup, h1, ih]

theorem map_fst_aset_mem {α : Type} (l : List (String × α)) (k : String) (v : α)
    (h : k ∈ l.map Prod.fst) : (aset l k v).map Prod.fst = l.map Prod.fst := by
  induction l with
  | nil => simp at h
  | cons hd tl ih =>
    obtain ⟨k0, w⟩ := hd
    by_cases h0 : k0 = k
    · simp [aset, h0]
    · have h2 : k = k0 ∨ k ∈ tl.map Prod.fst := by
        simpa only [List.map_cons, List.mem_cons] using h
      have hk : k ∈ tl.map Prod.fst := by
        rcases h2 with h1 | h1
        · exact absurd h1.symm h0
        · exact h1
      simp [aset, h0, ih hk]

theorem getNat_incKey_self (st : Stats) (k : String) :
    getNat (incKey st k) k = getNat st k + 1 := by
  simp [incKey, getNat, alookup_aset_self]

theorem getNat_incKey_ne (st : Stats) (k k' : String) (h : k' ≠ k) :
    getNat (incKey st k') k = getNat st k := by
  simp [incKey, getNat, alookup_aset_ne _ _ _ _ h]

theorem getNat_pushKey_ne (st : Stats) (k k' : String) (s : String) (h : k' ≠ k) :
    getNat (pushKey st k' s) k = getNat st k := by
  simp [pushKey, getNat, alookup_aset_ne _ _ _ _ h]

theorem statKeys_incKey (st : Stats) (k : String) (h : k ∈ statKeys st) :
    statKeys (incKey st k) = statKeys st := by
  simpa [statKeys, incKey] using map_fst_aset_mem st k _ h

theorem statKeys_pushKey (st : Stats) (k : String) (s : String) (h : k ∈ statKeys st) :
    statKeys (pushKey st k s) = statKeys st := by
  simpa [statKeys, pushKey] using map_fst_aset_mem st k _ h

/-! ## Helper lemmas about rsplit and the side store -/

theorem pyRsplitLastSlash_eq_none_iff (s : String) :
    pyRsplitLastSlash s = none ↔ '/' ∉ s.data := by
  unfold pyRsplitLastSlash
  rw [List.span_eq_take_drop]
  constructor
  · intro h hmem
    rcases hd : s.data.reverse.dropWhile (fun x => decide (x ≠ '/')) with _ | ⟨c, rest⟩
    · rw [List.dropWhile_eq_nil_iff] at hd
      have := hd '/' (by simpa using hmem)
      simp at this
    · rw [hd] at h
      simp at h
  · intro hnot
    have hd : s.data.reverse.dropWhile (fun x => decide (x ≠ '/')) = [] := by
      rw [List.dropWhile_eq_nil_iff]
      intro x hx
      have hxd : x ∈ s.data := by simpa using hx
      have hne : x ≠ '/' := fun he => hnot (he ▸ hxd)
      simpa using hne
    rw [hd]

theorem get_comments_add_comment_self (st : SideState) (aid auth c uid t : String) :
    get_comments (add_comment st aid auth c uid t).2 aid
      = get_comments st aid ++ [(add_comment st aid auth c uid t).1] := by
  simp [get_comments, add_comment, alookup_aset_self]

theorem get_comments_add_comment_ne (st : SideState) (aid auth c uid t b : String)
    (h : b ≠ aid) :
    get_comments (add_comment st aid auth c uid t).2 b = get_comments st b := by
  simp [get_comments, add_comment, alookup_aset_ne _ _ _ _ (fun he => h he.symm)]

theorem get_article_comment_count (fs : FSTree) (st : SideState)
    (ro : List String → Bool) (aid : String) (a : Article)
    (h : get_article fs st ro aid = some a) :
    a.comment_count = (get_comments st aid).length := by
  unfold get_article at h
  rcases hr : pyRsplitLastSlash aid with _ | ⟨c, f⟩ <;> rw [hr] at h
  · exact absurd h (by simp)
  · simp only at h
    split at h
    · exact absurd h (by simp)
    · split at h
      · exact absurd h (by simp)
      · split at h
        · exact absurd h (by simp)
        · injection h with h
          subst h
          rfl

/-! ## Claim C9: separator-free identifiers -/

/-- C9: for every `article_id` with no `/`, `get_article` returns `None` on
the invalid-format branch, for EVERY filesystem and side-data state — in
particular the flat fallback directly under the content root is never tried
for separator-free identifiers. -/
theorem get_article_no_slash_is_none (fs : FSTree) (st : SideState)
    (ro : List String → Bool) (article_id : String) (h : '/' ∉ article_id.data) :
    get_article fs st ro article_id = none := by
  unfold get_article
  rw [(pyRsplitLastSlash_eq_none_iff article_id).mpr h]

/-- Witness for C9: `"x.md"` has no `/`; a file of exactly that name exists
directly under the content root, yet `get_article` still returns `None`. -/
theorem get_article_no_slash_is_none_witness :
    get_article (.dir [("x.md", .file "hello")]) ⟨[], []⟩ (fun _ => false) "x.md" = none
    ∧ isFile (.dir [("x.md", .file "hello")]) ["x.md"] = true :=
  ⟨get_article_no_slash_is_none _ _ _ _ (by decide), by decide⟩

/-! ## Claim C1: last-slash split and flat fallback -/

/-- C1: for every `article_id` containing a `/`, `get_article` splits at the
last `/` and joins `(content_root, category_id, filename)`; when that primary
path is an existing file (and the read succeeds) the article is returned from
it, and when neither the primary path nor the fallback path
`content_root / article_id` resolves to an existing file the result is
`None` (NotFound). -/
theorem get_article_split_join_fallback (fs : FSTree) (st : SideState)
    (ro : List String → Bool) (article_id : String) (h : '/' ∈ article_id.data) :
    (isFile fs (primaryPathOf article_id) = false →
     isFile fs (altPathOf article_id) = false →
     get_article fs st ro article_id = none)
    ∧ (isFile fs (primaryPathOf article_id) = true →
       ro (primaryPathOf article_id) = false →
       ∃ a, get_article fs st ro article_id = some a
         ∧ a.path = primaryPathOf article_id) := by
  rcases hr : pyRsplitLastSlash article_id with _ | ⟨c, f⟩
  · exact absurd ((pyRsplitLastSlash_eq_none_iff article_id).mp hr) (by simpa using h)
  · have hp : primaryPathOf article_id = pyParseSegments c ++ pyParseSegments f := by
      simp [primaryPathOf, hr]
    have ha : altPathOf article_id = pyParseSegments article_id := rfl
    constructor
    · intro h1 h2
      rw [hp] at h1
      rw [ha] at h2
      unfold get_article
      rw [hr]
      simp only [h1, h2, Bool.false_eq_true, if_false]
    · intro h1 h2
      rw [hp] at h1 h2
      obtain ⟨content, hcontent⟩ := Option.isSome_iff_exists.mp h1
      unfold get_article
      rw [hr]
      simp only [h1, if_true, h2, Bool.false_eq_true, if_false, hcontent]
      exact ⟨_, rfl, hp.symm⟩

/-- Witness for C1: on a concrete tree, `"c/a.md"` resolves at the primary
path `["c", "a.md"]`. -/
theorem get_article_split_join_fallback_witness :
    ∃ a, get_article (.dir [("c", .dir [("a.md", .file "hi")])]) ⟨[], []⟩
           (fun _ => false) "c/a.md" = some a
      ∧ a.path = primaryPathOf "c/a.md" :=
  (get_article_split_join_fallback (.dir [("c", .dir [("a.md", .file "hi")])])
    ⟨[], []⟩ (fun _ => false) "c/a.md" (by decide)).2 (by decide) rfl

/-! ## Claim C10: add_comment frame -/

/-- C10: `add_comment` on article `aid` leaves the stored comment list of
every other article `b ≠ aid` unchanged, and never touches the summaries
store. -/
theorem add_comment_frame (st : SideState) (aid auth c uid t b : String)
    (h : b ≠ aid) :
    get_comments (add_comment st aid auth c uid t).2 b = get_comments st b
    ∧ (add_comment st aid auth c uid t).2.summaries = st.summaries :=
  ⟨get_comments_add_comment_ne st aid auth c uid t b h, rfl⟩

/-- Witness for C10 at a concrete store holding a comment list for `"b"`. -/
theorem add_comment_frame_witness :
    get_comments (add_comment ⟨[("b", [⟨"i0", "b", "u0", "z", "t0"⟩])], []⟩
        "a" "u" "hi" "i" "t").2 "b"
      = get_comments ⟨[("b", [⟨"i0", "b", "u0", "z", "t0"⟩])], []⟩ "b"
    ∧ (add_comment ⟨[("b", [⟨"i0", "b", "u0", "z", "t0"⟩])], []⟩
        "a" "u" "hi" "i" "t").2.summaries
      = (⟨[("b", [⟨"i0", "b", "u0", "z", "t0"⟩])], []⟩ : SideState).summaries :=
  add_comment_frame _ "a" "u" "hi" "i" "t" "b" (by decide)

/-! ## Claim C7: add_comment is append-only -/

/-- C7: adding comment A then comment B to the same article appends exactly
`[A, B]` in that order to the previously stored list, and the
`comment_count` of any subsequent `get_article` read equals the length of
the stored comment list for that identifier. -/
theorem add_comment_append_only (st : SideState)
    (aid auth1 c1 uid1 t1 auth2 c2 uid2 t2 : String) :
    get_comments (add_comment (add_comment st aid auth1 c1 uid1 t1).2
        aid auth2 c2 uid2 t2).2 aid
      = get_comments st aid
        ++ [(add_comment st aid auth1 c1 uid1 t1).1,
            (add_comment (add_comment st aid auth1 c1 uid1 t1).2 aid auth2 c2 uid2 t2).1]
    ∧ ∀ (fs : FSTree) (ro : List String → Bool) (readId : String) (a : Article),
        get_article fs (add_comment (add_comment st aid auth1 c1 uid1 t1).2
            aid auth2 c2 uid2 t2).2 ro readId = some a →
        a.comment_count
          = (get_comments (add_comment (add_comment st aid auth1 c1 uid1 t1).2
              aid auth2 c2 uid2 t2).2 readId).length := by
  constructor
  · rw [get_comments_add_comment_self, get_comments_add_comment_self,
      List.append_assoc]
    rfl
  · intro fs ro readId a ha
    exact get_article_comment_count _ _ _ _ _ ha

/-- Witness for C7: two comments added to `"c/a.md"` starting from the empty
store; the article read reports `comment_count = 2`, the stored list length. -/
theorem add_comment_append_only_witness :
    get_article (.dir [("c", .dir [("a.md", .file "hi")])])
        (add_comment (add_comment ⟨[], []⟩ "c/a.md" "u1" "x" "i1" "t1").2
          "c/a.md" "u2" "y" "i2" "t2").2 (fun _ => false) "c/a.md"
      = some ⟨"c/a.md", "hi", "c", "hi", none, 2, ["c", "a.md"]⟩
    ∧ (2 : Nat)
        = (get_comments (add_comment (add_comment ⟨[], []⟩ "c/a.md" "u1" "x" "i1" "t1").2
            "c/a.md" "u2" "y" "i2" "t2").2 "c/a.md").length :=
  ⟨by decide,
   (add_comment_append_only ⟨[], []⟩ "c/a.md" "u1" "x" "i1" "t1" "u2" "y" "i2" "t2").2
     (.dir [("c", .dir [("a.md", .file "hi")])]) (fun _ => false) "c/a.md"
     ⟨"c/a.md", "hi", "c", "hi", none, 2, ["c", "a.md"]⟩ (by decide)⟩


/-! ## Claim C3: category qualification probe -/

/-- C3 counterexample: a directory `a` whose ONLY entry is the hidden
subdirectory `.h`. The claim says such a directory is excluded from
`list_categories` (formalised by `specCategories specProbeClaim`, whose probe
skips hidden subdirectories, and which returns `[]` here), but the code's
`has_content` probe tests `os.path.isdir` with no name filter, so `a` IS
returned. -/
theorem get_categories_hidden_probe_counterexample :
    get_categories [("a", .dir [(".h", .dir [])])]
      = [{ id := "a", name := "a", path := ["a"] }]
    ∧ specCategories specProbeClaim [] [("a", .dir [(".h", .dir [])])] none = [] := by
  constructor
  · simp [get_categories, processDirectory, entryHasContent,
      strEndsWith, strStartsWith, FSTree.isDirNode]
  · simp only [specCategories, specProbeClaim, strEndsWith, strStartsWith,
      FSTree.isDirNode, List.any_cons, List.any_nil]
    decide

/-- Shared helper: the recursive walk of `get_categories` coincides, at every
base path and parent id, with the spec-style enumeration whose probe counts
markdown-named entries and ALL subdirectories (hidden ones included). -/
theorem processDirectory_eq_specCategories (entries : List (String × FSTree))
    (base : List String) (parentId : Option String) :
    processDirectory base entries parentId
      = specCategories specProbeCode base entries parentId := by
  induction base, entries, parentId using processDirectory.induct with
  | case1 base parentId => rw [processDirectory.eq_def, specCategories.eq_def]
  | case2 base name c rest parentId ih =>
    rw [processDirectory.eq_2]
    rw [specCategories.eq_def]
    simpa using ih
  | case3 base name sub rest parentId ihsub ihrest =>
    rw [processDirectory.eq_def, specCategories.eq_def]
    by_cases hh : strStartsWith name "."
    · simp [hh, ihrest]
    · by_cases hc : sub.any entryHasContent
      · simp [hh, hc, specProbeCode, ihrest, ihsub]
      · simp [hh, hc, specProbeCode, ihrest]

/-- C3 (amended): `get_categories` contains exactly the non-hidden
directories whose listing directly contains at least one markdown-named entry
or at least one subdirectory, where the probe counts hidden subdirectories
too — so a directory whose only entry is a hidden subdirectory is INCLUDED. -/
theorem get_categories_eq_spec_probe (root : List (String × FSTree)) :
    get_categories root = specCategories specProbeCode [] root none :=
  processDirectory_eq_specCategories root [] none

/-! ## Claim C4: article titles -/

/-- Modelled from the claim: the title is "the markdown content's first
NON-EMPTY line with leading `#` characters and surrounding whitespace
stripped", falling back to the filename when there is no such line. -/
def claimTitle (content fname : String) : String :=
  match (pySplitlines content).filter (fun l => l ≠ "") with
  | [] => fname
  | l :: _ => pyStrip (pyLstripHash l)

/-- C4 counterexample, three divergences from the claim on the one-article
tree `c/a.md` with content `"\nHello"`:
1. the code titles from line 0 (here the empty line), giving `""`, where the
   claim's first-NON-empty-line rule gives `"Hello"`;
2. when the read fails, `get_article` returns `None` — no article carrying
   the claimed filename-fallback title is returned although the file exists;
3. when the read fails, the listing titles the article `"a"` (the entry name
   with `.md` removed), not the filename `"a.md"` the claim's fallback
   names. -/
theorem get_article_title_counterexample :
    (get_article (.dir [("c", .dir [("a.md", .file "\nHello")])]) ⟨[], []⟩
       (fun _ => false) "c/a.md").map Article.title = some ""
    ∧ claimTitle "\nHello" "a.md" = "Hello"
    ∧ ("" : String) ≠ "Hello"
    ∧ get_article (.dir [("c", .dir [("a.md", .file "\nHello")])]) ⟨[], []⟩
        (fun _ => true) "c/a.md" = none
    ∧ isFile (.dir [("c", .dir [("a.md", .file "\nHello")])]) ["c", "a.md"] = true
    ∧ (get_articles_by_category (.dir [("c", .dir [("a.md", .file "\nHello")])]) ⟨[], []⟩
        (fun _ => true) "c").map ArticleSummary.title = ["a"]
    ∧ ("a" : String) ≠ "a.md" := by
  refine ⟨by decide, by decide, by decide, by decide, by decide, ?_, by decide⟩
  simp [get_articles_by_category, pyParseSegments, pySplitSlash, splitOnSlashAux,
    lookupPath, findEntry, listArticles, readEntry, strEndsWith, strStartsWith,
    get_comments, alookup, pyRemoveMd, removeMdAux]

/-- `True` when sibling entry names are pairwise distinct (one list level). -/
def namesNodup : List String → Bool
  | [] => true
  | n :: rest => rest.all (fun m => m ≠ n) && namesNodup rest

mutual

/-- A well-formed filesystem tree: in every directory the entry names are
pairwise distinct, as the OS guarantees for a real directory listing. -/
def treeNodup : FSTree → Bool
  | .file _ => true
  | .dir es => namesNodup (es.map Prod.fst) && entriesNodupAll es

/-- `treeNodup` of every entry of a listing. -/
def entriesNodupAll : List (String × FSTree) → Bool
  | [] => true
  | e :: rest => treeNodup e.2 && entriesNodupAll rest

end

/-- The attempted read of the file at `p` in `fs`: `none` when the read
oracle fires, when `p` is absent, or when `p` is a directory (the
`IsADirectoryError` from `open`). -/
def readFileAtOracle (fs : FSTree) (ro : List String → Bool) (p : List String) :
    Option String :=
  if ro p then none else readFileAt fs p

/-- Path lookup distributes over path concatenation. -/
theorem lookupPath_append (p : List String) :
    ∀ (t : FSTree) (q : List String),
      lookupPath t (p ++ q) = (lookupPath t p).bind (fun t2 => lookupPath t2 q) := by
  induction p with
  | nil => intro t q; simp [lookupPath]
  | cons n rest ih =>
    intro t q
    cases t with
    | file c => simp [lookupPath]
    | dir es =>
      simp only [List.cons_append, lookupPath]
      cases hf : findEntry es n with
      | none => rfl
      | some t2 => exact ih t2 q

/-- `findEntry` only returns entries of the listing. -/
theorem findEntry_some_mem (es : List (String × FSTree)) (n : String) (t : FSTree)
    (h : findEntry es n = some t) : (n, t) ∈ es := by
  induction es with
  | nil => simp [findEntry] at h
  | cons e rest ih =>
    obtain ⟨n0, t0⟩ := e
    by_cases h0 : n0 = n
    · subst h0
      simp only [findEntry, if_pos rfl] at h
      injection h with h
      subst h
      exact List.mem_cons_self _ _
    · simp only [findEntry, if_neg h0] at h
      exact List.mem_cons_of_mem _ (ih h)

/-- With pairwise-distinct sibling names, `findEntry` finds exactly the
member entry. -/
theorem findEntry_mem_nodup (es : List (String × FSTree)) (n : String) (t : FSTree)
    (hnd : namesNodup (es.map Prod.fst) = true) (hmem : (n, t) ∈ es) :
    findEntry es n = some t := by
  induction es with
  | nil => simp at hmem
  | cons e rest ih =>
    obtain ⟨n0, t0⟩ := e
    simp only [List.map_cons, namesNodup, Bool.and_eq_true, List.all_eq_true] at hnd
    rcases List.mem_cons.mp hmem with heq | hmem2
    · injection heq with h1 h2
      subst h1
      subst h2
      simp [findEntry]
    · have hne : n0 ≠ n := by
        intro he
        subst he
        have hn : n0 ∈ rest.map Prod.fst := List.mem_map.mpr ⟨(n0, t), hmem2, rfl⟩
        have := hnd.1 n0 hn
        simp at this
      simp only [findEntry, if_neg hne]
      exact ih hnd.2 hmem2

/-- Every entry of a `treeNodup`-listed directory is itself well formed. -/
theorem treeNodup_of_mem_entries (es : List (String × FSTree)) (e : String × FSTree)
    (h : entriesNodupAll es = true) (hm : e ∈ es) : treeNodup e.2 = true := by
  induction es with
  | nil => simp at hm
  | cons e0 rest ih =>
    simp only [entriesNodupAll, Bool.and_eq_true] at h
    rcases List.mem_cons.mp hm with he | hm2
    · subst he
      exact h.1
    · exact ih h.2 hm2

/-- Well-formedness survives path lookup. -/
theorem treeNodup_lookupPath (p : List String) :
    ∀ (fs t : FSTree), treeNodup fs = true → lookupPath fs p = some t →
      treeNodup t = true := by
  induction p with
  | nil =>
    intro fs t h hl
    simp only [lookupPath, Option.some.injEq] at hl
    subst hl
    exact h
  | cons n rest ih =>
    intro fs t h hl
    cases fs with
    | file c => simp [lookupPath] at hl
    | dir es =>
      simp only [lookupPath] at hl
      rcases hf : findEntry es n with _ | t2 <;> rw [hf] at hl
      · simp at hl
      · have hmem := findEntry_some_mem es n t2 hf
        simp only [treeNodup, Bool.and_eq_true] at h
        exact ih t2 t (treeNodup_of_mem_entries es (n, t2) h.2 hmem) hl

/-- In a well-formed tree, extending a directory path by the name of one of
its entries resolves to exactly that entry's node. -/
theorem lookupPath_child (fs : FSTree) (dirPath : List String)
    (es0 : List (String × FSTree)) (item : String) (t : FSTree)
    (hl : lookupPath fs dirPath = some (.dir es0))
    (hnd : namesNodup (es0.map Prod.fst) = true)
    (hmem : (item, t) ∈ es0) :
    lookupPath fs (dirPath ++ [item]) = some t := by
  rw [lookupPath_append, hl]
  show lookupPath (.dir es0) [item] = some t
  simp only [lookupPath, findEntry_mem_nodup es0 item t hnd hmem]

/-- Reading the node a path resolves to is reading the path. -/
theorem readFileAtOracle_of_lookup (fs : FSTree) (ro : List String → Bool)
    (p : List String) (t : FSTree) (hl : lookupPath fs p = some t) :
    readFileAtOracle fs ro p = readEntry ro p t := by
  unfold readFileAtOracle readFileAt readEntry
  cases t with
  | file c => rw [hl]
  | dir es =>
    rw [hl]
    cases hro : ro p <;> simp [hro]

/-- Shared helper for C4 (part 1): whenever `get_article` returns an article,
its title is line 0 of the content (empty or not) with `#` then whitespace
stripped, and the bare filename when the content is empty. -/
theorem get_article_title_rule (fs : FSTree) (st : SideState)
    (ro : List String → Bool) (article_id : String) (a : Article)
    (h : get_article fs st ro article_id = some a) :
    ∃ c f, pyRsplitLastSlash article_id = some (c, f) ∧
      a.title = (if a.content = "" then f else pyTitleLine a.content) := by
  unfold get_article at h
  rcases hr : pyRsplitLastSlash article_id with _ | ⟨c, f⟩ <;> rw [hr] at h
  · exact absurd h (by simp)
  · refine ⟨c, f, rfl, ?_⟩
    simp only at h
    split at h
    · exact absurd h (by simp)
    · split at h
      · exact absurd h (by simp)
      · split at h
        · exact absurd h (by simp)
        · injection h with h
          subst h
          rfl

/-- Shared helper for C4 (part 2): in a well-formed tree, every summary
emitted by the listing walk lies at a `.md`-named path, and its title is
determined by the attempted read OF THAT PATH in `fs`: line 0 of the content
on a successful read (the raw entry name when the content is empty), the
entry name with `.md` removed when the read fails. -/
theorem listArticles_title_rule (fs : FSTree) (st : SideState)
    (ro : List String → Bool) (hwf : treeNodup fs = true) :
    ∀ (entries : List (String × FSTree)) (dirPath : List String) (cat : String),
      (∃ es0, lookupPath fs dirPath = some (.dir es0) ∧ entries <:+ es0) →
      ∀ a ∈ listArticles st ro entries dirPath cat,
      ∃ p item, a.path = p ++ [item] ∧ strEndsWith item ".md" = true ∧
        a.title = (match readFileAtOracle fs ro a.path with
          | some content => if content = "" then item else pyTitleLine content
          | none => pyRemoveMd item) := by
  intro entries dirPath cat
  induction entries, dirPath, cat using listArticles.induct st ro with
  | case1 d c =>
    intro _ a ha
    rw [listArticles.eq_def] at ha
    simp at ha
  | case2 item t rest dirPath cat ihsub ihrest =>
    rintro ⟨es0, hl, hsuf⟩ a ha
    have hmemHead : (item, t) ∈ es0 :=
      hsuf.sublist.subset (List.mem_cons_self _ _)
    have hnd : namesNodup (es0.map Prod.fst) = true := by
      have hdir := treeNodup_lookupPath dirPath fs (.dir es0) hwf hl
      simp only [treeNodup, Bool.and_eq_true] at hdir
      exact hdir.1
    have hchild : lookupPath fs (dirPath ++ [item]) = some t :=
      lookupPath_child fs dirPath es0 item t hl hnd hmemHead
    rw [listArticles.eq_def] at ha
    simp only [List.mem_append] at ha
    rcases ha with ha | ha
    · by_cases hmd : strEndsWith item ".md"
      · simp only [hmd, if_true] at ha
        simp only [List.mem_singleton] at ha
        subst ha
        refine ⟨dirPath, item, rfl, hmd, ?_⟩
        rw [readFileAtOracle_of_lookup fs ro (dirPath ++ [item]) t hchild]
      · simp only [hmd, Bool.false_eq_true, if_false] at ha
        match t, hchild, ihsub with
        | FSTree.file c0, _, _ => simp at ha
        | FSTree.dir sub, hchild, ihsub =>
          by_cases hh : strStartsWith item "."
          · simp [hh] at ha
          · simp only [hh, Bool.false_eq_true, if_false] at ha
            exact ihsub ⟨sub, hchild, List.suffix_refl sub⟩ a ha
    · exact ihrest ⟨es0, hl, (List.suffix_cons (item, t) rest).trans hsuf⟩ a ha

/-- C4 (amended): for every article returned by `get_article` or
`get_articles_by_category` (on a well-formed tree: distinct sibling names,
as a real directory guarantees), the title equals the content's FIRST line
(line 0, even when it is empty) with leading `#` then surrounding whitespace
stripped, where the content is that of the article's own file in the tree.
The fallbacks differ per function: `get_article` uses the full filename when
the content is empty and returns `None`, no fallback title, when the read
fails; the listing uses the raw entry name when the content is empty and the
entry name with `.md` removed when the read fails. -/
theorem article_title_first_line (fs : FSTree) (st : SideState)
    (ro : List String → Bool) (hwf : treeNodup fs = true) :
    (∀ (article_id : String) (a : Article), get_article fs st ro article_id = some a →
       ∃ c f, pyRsplitLastSlash article_id = some (c, f) ∧
         a.title = (if a.content = "" then f else pyTitleLine a.content))
    ∧ (∀ (category_id : String) (a : ArticleSummary),
         a ∈ get_articles_by_category fs st ro category_id →
         ∃ p item, a.path = p ++ [item] ∧ strEndsWith item ".md" = true ∧
           a.title = (match readFileAtOracle fs ro a.path with
             | some content => if content = "" then item else pyTitleLine content
             | none => pyRemoveMd item)) := by
  constructor
  · intro article_id a h
    exact get_article_title_rule fs st ro article_id a h
  · intro category_id a ha
    simp only [get_articles_by_category] at ha
    rcases hl : lookupPath fs (pyParseSegments category_id) with _ | t <;> rw [hl] at ha
    · simp at ha
    · match t, hl, ha with
      | FSTree.file c0, _, ha => simp at ha
      | FSTree.dir es, hl, ha =>
        exact listArticles_title_rule fs st ro hwf es _ _
          ⟨es, hl, List.suffix_refl es⟩ a ha

set_option maxHeartbeats 1000000 in
/-- Witness for C4 (amended), at a well-formed one-article tree with content
`"# T"`: both parts instantiated, title `"T"` from the article's own file. -/
theorem article_title_first_line_witness :
    (∃ c f, pyRsplitLastSlash "c/a.md" = some (c, f) ∧
       (Article.mk "c/a.md" "T" "c" "# T" none 0 ["c", "a.md"]).title
         = (if (Article.mk "c/a.md" "T" "c" "# T" none 0 ["c", "a.md"]).content = ""
            then f else pyTitleLine (Article.mk "c/a.md" "T" "c" "# T" none 0 ["c", "a.md"]).content))
    ∧ (∃ p item, (ArticleSummary.mk "c/a.md" "T" "c" none 0 ["c", "a.md"]).path = p ++ [item]
        ∧ strEndsWith item ".md" = true
        ∧ (ArticleSummary.mk "c/a.md" "T" "c" none 0 ["c", "a.md"]).title
            = (match readFileAtOracle (.dir [("c", .dir [("a.md", .file "# T")])])
                 (fun _ => false)
                 (ArticleSummary.mk "c/a.md" "T" "c" none 0 ["c", "a.md"]).path with
               | some content => if content = "" then item else pyTitleLine content
               | none => pyRemoveMd item)) := by
  have hwf : treeNodup (.dir [("c", .dir [("a.md", .file "# T")])]) = true := by
    simp [treeNodup, entriesNodupAll, namesNodup]
  have h := article_title_first_line (.dir [("c", .dir [("a.md", .file "# T")])])
    ⟨[], []⟩ (fun _ => false) hwf
  refine ⟨h.1 "c/a.md" (Article.mk "c/a.md" "T" "c" "# T" none 0 ["c", "a.md"]) (by decide),
    h.2 "c" (ArticleSummary.mk "c/a.md" "T" "c" none 0 ["c", "a.md"]) ?_⟩
  have hval : get_articles_by_category (.dir [("c", .dir [("a.md", .file "# T")])])
      ⟨[], []⟩ (fun _ => false) "c"
      = [ArticleSummary.mk "c/a.md" "T" "c" none 0 ["c", "a.md"]] := by
    simp [get_articles_by_category, pyParseSegments, pySplitSlash, splitOnSlashAux,
      lookupPath, findEntry, listArticles, readEntry, strEndsWith, strStartsWith,
      get_comments, alookup, pyTitleLine, pySplitlines, pySplitlinesAux,
      isLineBoundary, pyStrip, pyLstripHash, pyIsSpace, pyWhitespace]
  rw [hval]
  simp

/-! ## Claim C5: stats fields of ImportResult -/

/-- C5 counterexample: a successful `import_from_directory` result whose
stats dict has ONLY `categories`, `articles` and `categories_created` —
`errors` and `summaries_generated` are absent (the claim asserts all five
fields on every successful ImportResult of either import). -/
theorem import_from_directory_stats_keys_counterexample :
    import_from_directory true [("a.md", .file "hi")] "src" true [] (fun _ => false)
      = .ok [("categories", .nat 1), ("articles", .nat 1), ("categories_created", .strs ["src"])]
    ∧ alookup ([("categories", .nat 1), ("articles", .nat 1),
        ("categories_created", .strs ["src"])] : Stats) "errors" = none
    ∧ alookup ([("categories", .nat 1), ("articles", .nat 1),
        ("categories_created", .strs ["src"])] : Stats) "summaries_generated" = none := by
  refine ⟨?_, by decide, by decide⟩
  have hw : walkMd [("a.md", FSTree.file "hi")] none = [(none, "a.md")] := by
    simp [walkMd, walkMdSub, strEndsWith, FSTree.isDirNode]
  simp only [import_from_directory, hw]
  decide



/-- A key absent from a dict's key list looks up to `none`. -/
theorem alookup_eq_none_of_not_mem_statKeys (l : Stats) (k : String)
    (h : k ∉ statKeys l) : alookup l k = none := by
  induction l with
  | nil => rfl
  | cons kv rest ih =>
    obtain ⟨k1, v1⟩ := kv
    simp only [statKeys, List.map_cons, List.mem_cons, not_or] at h
    simp only [alookup]
    rw [if_neg (fun he => h.1 he.symm)]
    exact ih (by simpa [statKeys] using h.2)

/-- `incKey` on a key of the list keeps the key list. -/
theorem statKeys_incKey_of_eq (st : Stats) (k : String) (ks : List String)
    (hmem : k ∈ ks) (h : statKeys st = ks) : statKeys (incKey st k) = ks := by
  have hm : k ∈ statKeys st := by rw [h]; exact hmem
  rw [statKeys_incKey st k hm, h]

/-- `pushKey` on a key of the list keeps the key list. -/
theorem statKeys_pushKey_of_eq (st : Stats) (k v : String) (ks : List String)
    (hmem : k ∈ ks) (h : statKeys st = ks) : statKeys (pushKey st k v) = ks := by
  have hm : k ∈ statKeys st := by rw [h]; exact hmem
  rw [statKeys_pushKey st k v hm, h]

/-- One directory-import iteration keeps the three-key stats dict shape. -/
theorem statKeys_dirImportStep (sourceName : String) (copyFail : Nat → Bool)
    (s : DirImportSt) (f : Option String × String) (i : Nat)
    (h : statKeys s.stats = ["categories", "articles", "categories_created"]) :
    statKeys (dirImportStep sourceName copyFail s f i).stats
      = ["categories", "articles", "categories_created"] := by
  have core : ∀ category : String,
      statKeys ((if dirExists s.dirs (pyParseSegments category) = true then s
        else
          if s.created.contains ((pySplitSlash category).headD "") = true
          then { stats := s.stats, created := s.created,
                 dirs := mkdirParents s.dirs (pyParseSegments category) }
          else { stats := pushKey (incKey s.stats "categories") "categories_created"
                   ((pySplitSlash category).headD ""),
                 created := s.created ++ [(pySplitSlash category).headD ""],
                 dirs := mkdirParents s.dirs (pyParseSegments category) } : DirImportSt)).stats
        = ["categories", "articles", "categories_created"] := by
    intro category
    split
    · exact h
    · split
      · exact h
      · exact statKeys_pushKey_of_eq _ _ _ _ (by simp)
          (statKeys_incKey_of_eq _ _ _ (by simp) h)
  unfold dirImportStep
  split
  · split
    · exact core sourceName
    · exact statKeys_incKey_of_eq _ "articles" _ (by simp) (core sourceName)
  · split
    · exact core _
    · exact statKeys_incKey_of_eq _ "articles" _ (by simp) (core _)

/-- The directory-import loop keeps the three-key stats dict shape. -/
theorem statKeys_dirImportLoop (sourceName : String) (copyFail : Nat → Bool) :
    ∀ (l : List (Option String × String)) (i : Nat) (s : DirImportSt),
      statKeys s.stats = ["categories", "articles", "categories_created"] →
      statKeys (dirImportLoop sourceName copyFail l i s).stats
        = ["categories", "articles", "categories_created"] := by
  intro l
  induction l with
  | nil => intro i s h; simpa [dirImportLoop] using h
  | cons f rest ih =>
    intro i s h
    simp only [dirImportLoop]
    exact ih (i + 1) _ (statKeys_dirImportStep sourceName copyFail s f i h)

/-- The per-file category-creation fold of the upload aggregation keeps the
five-key stats dict shape. -/
theorem statKeys_uploadCatsFold (cats : List String) :
    ∀ (stats : Stats) (created : List String),
      statKeys stats
        = ["categories", "articles", "categories_created", "errors", "summaries_generated"] →
      statKeys ((cats.foldl
        (fun acc c =>
          if acc.2.contains c then acc
          else (pushKey (incKey acc.1 "categories") "categories_created" c, acc.2 ++ [c]))
        (stats, created)).1)
        = ["categories", "articles", "categories_created", "errors", "summaries_generated"] := by
  induction cats with
  | nil => intro stats created h; simpa using h
  | cons c rest ih =>
    intro stats created h
    simp only [List.foldl_cons]
    by_cases hc : created.contains c
    · simp only [hc, if_true]
      exact ih stats created h
    · simp only [hc, Bool.false_eq_true, if_false]
      exact ih _ _ (statKeys_pushKey_of_eq _ _ _ _ (by simp)
        (statKeys_incKey_of_eq _ _ _ (by simp) h))

/-- The upload result aggregation keeps the five-key stats dict shape. -/
theorem statKeys_aggregateUploads (rs : List UpFileRes) :
    ∀ (stats : Stats) (created : List String),
      statKeys stats
        = ["categories", "articles", "categories_created", "errors", "summaries_generated"] →
      statKeys (aggregateUploads rs stats created)
        = ["categories", "articles", "categories_created", "errors", "summaries_generated"] := by
  induction rs with
  | nil => intro stats created h; simpa [aggregateUploads] using h
  | cons r rest ih =>
    intro stats created h
    match r with
    | .placed cats sg =>
      simp only [aggregateUploads]
      have h1 := statKeys_incKey_of_eq stats "articles" _ (by simp) h
      have h2 := statKeys_uploadCatsFold cats (incKey stats "articles") created h1
      by_cases hsg : sg
      · simp only [hsg, if_true]
        exact ih _ _ (statKeys_incKey_of_eq _ "summaries_generated" _ (by simp) h2)
      · simp only [hsg, Bool.false_eq_true, if_false]
        exact ih _ _ h2
    | .noCategory =>
      simp only [aggregateUploads]
      exact ih _ _ (statKeys_incKey_of_eq _ "errors" _ (by simp) h)
    | .failed =>
      simp only [aggregateUploads]
      exact ih _ _ (statKeys_incKey_of_eq _ "errors" _ (by simp) h)

/-- C5 (amended): every successful `import_from_uploads` result carries a
stats dict with exactly the five fields `categories`, `articles`,
`categories_created`, `errors`, `summaries_generated`; a successful
`import_from_directory` result carries only the first three — `errors` and
`summaries_generated` are absent from directory-import stats. -/
theorem import_result_stats_fields (sourceExists contentRootOk contentRootOk2 : Bool)
    (sourceEntries : List (String × FSTree)) (sourceName : String)
    (initDirs initDirs2 : List (List String)) (copyFail writeFail sumFail : Nat → Bool)
    (files : List UploadFile) (categories : List (String × String))
    (summarize : String → String) (now : String) (initSide : SideState) :
    (∀ S, import_from_directory sourceExists sourceEntries sourceName contentRootOk
        initDirs copyFail = .ok S →
      statKeys S = ["categories", "articles", "categories_created"]
      ∧ alookup S "errors" = none ∧ alookup S "summaries_generated" = none)
    ∧ (∀ S, import_from_uploads contentRootOk2 files categories writeFail sumFail
        summarize now initDirs2 initSide = .ok S →
      statKeys S
        = ["categories", "articles", "categories_created", "errors", "summaries_generated"]) := by
  constructor
  · intro S hS
    unfold import_from_directory at hS
    split at hS
    · exact absurd hS (by simp)
    · split at hS
      · exact absurd hS (by simp)
      · simp only [] at hS
        split at hS
        · exact absurd hS (by simp)
        · injection hS with hS
          subst hS
          have hk := statKeys_dirImportLoop sourceName copyFail
            (walkMd sourceEntries none) 0 ⟨dirInitStats, [], initDirs⟩ (by rfl)
          refine ⟨hk, ?_, ?_⟩
          · exact alookup_eq_none_of_not_mem_statKeys _ _ (by rw [hk]; simp)
          · exact alookup_eq_none_of_not_mem_statKeys _ _ (by rw [hk]; simp)
  · intro S hS
    unfold import_from_uploads at hS
    split at hS
    · exact absurd hS (by simp)
    · simp only [] at hS
      split at hS
      · exact absurd hS (by simp)
      · injection hS with hS
        subst hS
        exact statKeys_aggregateUploads _ _ _ (by rfl)

/-- Witness for C5 (amended): the two key-list conclusions instantiated at
concrete one-file imports. -/
theorem import_result_stats_fields_witness :
    (statKeys [("categories", .nat 1), ("articles", .nat 1),
        ("categories_created", .strs ["src"])]
       = ["categories", "articles", "categories_created"]
     ∧ alookup ([("categories", .nat 1), ("articles", .nat 1),
         ("categories_created", .strs ["src"])] : Stats) "errors" = none
     ∧ alookup ([("categories", .nat 1), ("articles", .nat 1),
         ("categories_created", .strs ["src"])] : Stats) "summaries_generated" = none)
    ∧ statKeys [("categories", .nat 1), ("articles", .nat 1),
        ("categories_created", .strs ["c"]), ("errors", .nat 0), ("summaries_generated", .nat 1)]
       = ["categories", "articles", "categories_created", "errors", "summaries_generated"] := by
  have h := import_result_stats_fields true true true [("a.md", FSTree.file "hi")] "src"
    [] [] (fun _ => false) (fun _ => false) (fun _ => false)
    [⟨"a.md", "x"⟩] [("a.md", "c")] (fun s => s) "t" ⟨[], []⟩
  refine ⟨h.1 _ ?_, h.2 _ (by decide)⟩
  have hw : walkMd [("a.md", FSTree.file "hi")] none = [(none, "a.md")] := by
    simp [walkMd, walkMdSub, strEndsWith, FSTree.isDirNode]
  simp only [import_from_directory, hw]
  decide

/-! ## Claim C6: directory import tolerates per-file failures -/

/-- Number of indices in `[i, i + n)` at which the failure oracle is off. -/
def countSucc (fail : Nat → Bool) : Nat → Nat → Nat
  | _, 0 => 0
  | i, n + 1 => (if fail i then 0 else 1) + countSucc fail (i + 1) n

/-- One directory-import iteration adds 1 to `articles` exactly when the copy
does not fail. -/
theorem getNat_articles_dirImportStep (sourceName : String) (copyFail : Nat → Bool)
    (s : DirImportSt) (f : Option String × String) (i : Nat) :
    getNat (dirImportStep sourceName copyFail s f i).stats "articles"
      = getNat s.stats "articles" + (if copyFail i then 0 else 1) := by
  have core : ∀ category : String,
      getNat ((if dirExists s.dirs (pyParseSegments category) = true then s
        else
          if s.created.contains ((pySplitSlash category).headD "") = true
          then { stats := s.stats, created := s.created,
                 dirs := mkdirParents s.dirs (pyParseSegments category) }
          else { stats := pushKey (incKey s.stats "categories") "categories_created"
                   ((pySplitSlash category).headD ""),
                 created := s.created ++ [(pySplitSlash category).headD ""],
                 dirs := mkdirParents s.dirs (pyParseSegments category) } : DirImportSt)).stats
          "articles"
        = getNat s.stats "articles" := by
    intro category
    split
    · rfl
    · split
      · rfl
      · rw [getNat_pushKey_ne _ _ _ _ (by decide), getNat_incKey_ne _ _ _ (by decide)]
  unfold dirImportStep
  split
  · split
    · rw [Nat.add_zero]; exact core sourceName
    · rw [getNat_incKey_self, core sourceName]
  · split
    · rw [Nat.add_zero]; exact core _
    · rw [getNat_incKey_self, core _]

/-- The directory-import loop counts exactly the non-failing copies. -/
theorem getNat_articles_dirImportLoop (sourceName : String) (copyFail : Nat → Bool) :
    ∀ (l : List (Option String × String)) (i : Nat) (s : DirImportSt),
      getNat (dirImportLoop sourceName copyFail l i s).stats "articles"
        = getNat s.stats "articles" + countSucc copyFail i l.length := by
  intro l
  induction l with
  | nil => intro i s; simp [dirImportLoop, countSucc]
  | cons f rest ih =>
    intro i s
    simp only [dirImportLoop, List.length_cons, countSucc]
    rw [ih (i + 1), getNat_articles_dirImportStep, Nat.add_assoc]

/-- C6: `import_from_directory` succeeds exactly when the source directory
exists, the content root is available and the scan finds at least one
markdown file; per-file copy failures are swallowed — the loop continues and
the successful result's `articles` stat counts exactly the files whose copy
did not fail. -/
theorem import_from_directory_partial_failure (sourceExists contentRootOk : Bool)
    (sourceEntries : List (String × FSTree)) (sourceName : String)
    (initDirs : List (List String)) (copyFail : Nat → Bool) :
    (import_from_directory sourceExists sourceEntries sourceName contentRootOk
        initDirs copyFail).isOk
      = (sourceExists && contentRootOk && !(walkMd sourceEntries none).isEmpty)
    ∧ (∀ S, import_from_directory sourceExists sourceEntries sourceName contentRootOk
        initDirs copyFail = .ok S →
      getNat S "articles" = countSucc copyFail 0 (walkMd sourceEntries none).length) := by
  constructor
  · unfold import_from_directory
    cases sourceExists <;> cases contentRootOk <;>
      by_cases hmd : (walkMd sourceEntries none).isEmpty <;>
      simp [hmd, ImportResult.isOk]
  · intro S hS
    unfold import_from_directory at hS
    split at hS
    · exact absurd hS (by simp)
    · split at hS
      · exact absurd hS (by simp)
      · simp only [] at hS
        split at hS
        · exact absurd hS (by simp)
        · injection hS with hS
          subst hS
          rw [getNat_articles_dirImportLoop]
          simp [getNat, dirInitStats, alookup]

/-- Witness for C6: two root markdown files, the first copy fails; the import
still succeeds and `articles = 1`. -/
theorem import_from_directory_partial_failure_witness :
    (import_from_directory true [("a.md", .file "hi"), ("b.md", .file "yo")] "src" true []
        (fun i => i == 0)).isOk
      = (true && true && !(walkMd [("a.md", .file "hi"), ("b.md", .file "yo")] none).isEmpty)
    ∧ getNat [("categories", .nat 1), ("articles", .nat 1), ("categories_created", .strs ["src"])]
        "articles"
      = countSucc (fun i => i == 0) 0
          (walkMd [("a.md", .file "hi"), ("b.md", .file "yo")] none).length := by
  have h := import_from_directory_partial_failure true true
    [("a.md", .file "hi"), ("b.md", .file "yo")] "src" [] (fun i => i == 0)
  refine ⟨h.1, h.2 _ ?_⟩
  have hw : walkMd [("a.md", FSTree.file "hi"), ("b.md", FSTree.file "yo")] none
      = [(none, "a.md"), (none, "b.md")] := by
    simp [walkMd, walkMdSub, strEndsWith, FSTree.isDirNode]
  simp only [import_from_directory, hw]
  decide

/-! ## Claim C2: upload files without a category mapping -/

/-- C2 counterexample: two uploaded files, only `a.md` mapped. `b.md` is
soft-skipped (its per-file outcome is `no_category` and nothing hard-failed),
yet the aggregation counts it in the `errors` stat: the success result
carries `errors = 1`, contradicting "not in the errors stat". -/
theorem import_from_uploads_no_category_counterexample :
    import_from_uploads true [⟨"a.md", "x"⟩, ⟨"b.md", "y"⟩] [("a.md", "c")]
      (fun _ => false) (fun _ => false) (fun s => s) "t" [] ⟨[], []⟩
      = .ok [("categories", .nat 1), ("articles", .nat 1), ("categories_created", .strs ["c"]),
             ("errors", .nat 1), ("summaries_generated", .nat 1)]
    ∧ (uploadsLoop [("a.md", "c")] (fun _ => false) (fun _ => false) (fun s => s) "t"
        [⟨"a.md", "x"⟩, ⟨"b.md", "y"⟩] 0 [] ⟨[], []⟩).1
      = [.placed ["c"] true, .noCategory] :=
  ⟨by decide, by decide⟩

/-- The per-file outcome list of `import_from_uploads`, in input order. -/
def uploadResults (categories : List (String × String)) (writeFail sumFail : Nat → Bool)
    (summarize : String → String) (now : String) (files : List UploadFile)
    (initDirs : List (List String)) (initSide : SideState) : List UpFileRes :=
  (uploadsLoop categories writeFail sumFail summarize now files 0 initDirs initSide).1

/-- The upload loop yields one outcome per file: no file aborts the batch. -/
theorem uploadsLoop_length (categories : List (String × String))
    (wf sf : Nat → Bool) (sm : String → String) (now : String) :
    ∀ (files : List UploadFile) (i : Nat) (dirs : List (List String)) (st : SideState),
      (uploadsLoop categories wf sf sm now files i dirs st).1.length = files.length := by
  intro files
  induction files with
  | nil => intro i dirs st; rfl
  | cons f rest ih =>
    intro i dirs st
    simp only [uploadsLoop, List.length_cons, ih]

/-- An unmapped file's outcome is exactly the soft `no_category` result, in
place, with the loop continuing on the rest. -/
theorem uploadsLoop_get_noCategory (categories : List (String × String))
    (wf sf : Nat → Bool) (sm : String → String) (now : String) :
    ∀ (files : List UploadFile) (i : Nat) (dirs : List (List String)) (st : SideState)
      (j : Nat) (f : UploadFile),
      files.get? j = some f → alookup categories f.filename = none →
      (uploadsLoop categories wf sf sm now files i dirs st).1.get? j
        = some UpFileRes.noCategory := by
  intro files
  induction files with
  | nil => intro i dirs st j f hj; simp at hj
  | cons g rest ih =>
    intro i dirs st j f hj hnone
    match j, hj with
    | 0, hj =>
      rw [List.get?_cons_zero] at hj
      injection hj with hj
      subst hj
      simp only [uploadsLoop, List.get?_cons_zero]
      simp [processUpload, hnone]
    | Nat.succ j, hj =>
      rw [List.get?_cons_succ] at hj
      simp only [uploadsLoop, List.get?_cons_succ]
      exact ih (i + 1) _ _ j f hj hnone

/-- The aggregation fold over created categories leaves every counter other
than `categories` / `categories_created` unchanged. -/
theorem getNat_uploadCatsFold (cats : List String) :
    ∀ (stats : Stats) (created : List String) (k : String),
      "categories" ≠ k → "categories_created" ≠ k →
      getNat ((cats.foldl
        (fun acc c =>
          if acc.2.contains c then acc
          else (pushKey (incKey acc.1 "categories") "categories_created" c, acc.2 ++ [c]))
        (stats, created)).1) k = getNat stats k := by
  induction cats with
  | nil => intro stats created k h1 h2; rfl
  | cons c rest ih =>
    intro stats created k h1 h2
    simp only [List.foldl_cons]
    by_cases hc : created.contains c
    · simp only [hc, if_true]
      exact ih stats created k h1 h2
    · simp only [hc, Bool.false_eq_true, if_false]
      rw [ih _ _ k h1 h2, getNat_pushKey_ne _ _ _ _ h2, getNat_incKey_ne _ _ _ h1]


/-- The upload aggregation counts `articles` = placed results and
`errors` = ALL non-placed results (hard failures AND soft `no_category`
skips alike). -/
theorem getNat_aggregateUploads_counts (rs : List UpFileRes) :
    ∀ (stats : Stats) (created : List String),
      getNat (aggregateUploads rs stats created) "articles"
        = getNat stats "articles" + (rs.filter (fun r => r.isPlaced)).length
      ∧ getNat (aggregateUploads rs stats created) "errors"
        = getNat stats "errors" + (rs.filter (fun r => !r.isPlaced)).length := by
  induction rs with
  | nil => intro stats created; simp [aggregateUploads]
  | cons r rest ih =>
    intro stats created
    have hsg : ∀ (sg : Bool) (st : Stats) (k : String), "summaries_generated" ≠ k →
        getNat (if sg then incKey st "summaries_generated" else st) k = getNat st k := by
      intro sg st k hk
      by_cases h : sg
      · simp [h, getNat_incKey_ne _ _ _ hk]
      · simp [h]
    match r with
    | .placed cats sg =>
      have hfA : (UpFileRes.placed cats sg :: rest).filter (fun r => r.isPlaced)
          = UpFileRes.placed cats sg :: rest.filter (fun r => r.isPlaced) := by
        simp [UpFileRes.isPlaced]
      have hfE : (UpFileRes.placed cats sg :: rest).filter (fun r => !r.isPlaced)
          = rest.filter (fun r => !r.isPlaced) := by
        simp [UpFileRes.isPlaced]
      rw [hfA, hfE]
      simp only [aggregateUploads, List.length_cons]
      obtain ⟨ihA, ihE⟩ := ih
        (if sg = true then
          incKey ((cats.foldl
            (fun acc c =>
              if acc.2.contains c then acc
              else (pushKey (incKey acc.1 "categories") "categories_created" c, acc.2 ++ [c]))
            (incKey stats "articles", created)).1) "summaries_generated"
         else ((cats.foldl
            (fun acc c =>
              if acc.2.contains c then acc
              else (pushKey (incKey acc.1 "categories") "categories_created" c, acc.2 ++ [c]))
            (incKey stats "articles", created)).1))
        ((cats.foldl
          (fun acc c =>
            if acc.2.contains c then acc
            else (pushKey (incKey acc.1 "categories") "categories_created" c, acc.2 ++ [c]))
          (incKey stats "articles", created)).2)
      refine ⟨?_, ?_⟩
      · rw [ihA, hsg sg _ _ (by decide),
          getNat_uploadCatsFold cats _ _ _ (by decide) (by decide), getNat_incKey_self]
        omega
      · rw [ihE, hsg sg _ _ (by decide),
          getNat_uploadCatsFold cats _ _ _ (by decide) (by decide),
          getNat_incKey_ne _ _ _ (by decide)]
    | .noCategory =>
      have hfA : (UpFileRes.noCategory :: rest).filter (fun r => r.isPlaced)
          = rest.filter (fun r => r.isPlaced) := by
        simp [UpFileRes.isPlaced]
      have hfE : (UpFileRes.noCategory :: rest).filter (fun r => !r.isPlaced)
          = UpFileRes.noCategory :: rest.filter (fun r => !r.isPlaced) := by
        simp [UpFileRes.isPlaced]
      rw [hfA, hfE]
      simp only [aggregateUploads, List.length_cons]
      obtain ⟨ihA, ihE⟩ := ih (incKey stats "errors") created
      refine ⟨?_, ?_⟩
      · rw [ihA, getNat_incKey_ne _ _ _ (by decide)]
      · rw [ihE, getNat_incKey_self]
        omega
    | .failed =>
      have hfA : (UpFileRes.failed :: rest).filter (fun r => r.isPlaced)
          = rest.filter (fun r => r.isPlaced) := by
        simp [UpFileRes.isPlaced]
      have hfE : (UpFileRes.failed :: rest).filter (fun r => !r.isPlaced)
          = UpFileRes.failed :: rest.filter (fun r => !r.isPlaced) := by
        simp [UpFileRes.isPlaced]
      rw [hfA, hfE]
      simp only [aggregateUploads, List.length_cons]
      obtain ⟨ihA, ihE⟩ := ih (incKey stats "errors") created
      refine ⟨?_, ?_⟩
      · rw [ihA, getNat_incKey_ne _ _ _ (by decide)]
      · rw [ihE, getNat_incKey_self]
        omega

/-- C2 (amended): an upload file whose filename has no `category_map` entry
is skipped in place — its per-file outcome is the soft `no_category` result,
it is not imported and not counted in `articles`, and the loop continues with
one outcome per file — but the aggregation counts every non-placed outcome,
the soft skips included, in the `errors` stat. -/
theorem import_from_uploads_no_category_skip (contentRootOk : Bool)
    (files : List UploadFile) (categories : List (String × String))
    (writeFail sumFail : Nat → Bool) (summarize : String → String) (now : String)
    (initDirs : List (List String)) (initSide : SideState) :
    (uploadResults categories writeFail sumFail summarize now files initDirs initSide).length
      = files.length
    ∧ (∀ (j : Nat) (f : UploadFile), files.get? j = some f →
        alookup categories f.filename = none →
        (uploadResults categories writeFail sumFail summarize now files initDirs initSide).get? j
          = some UpFileRes.noCategory)
    ∧ (∀ S, import_from_uploads contentRootOk files categories writeFail sumFail
        summarize now initDirs initSide = .ok S →
      getNat S "articles"
        = ((uploadResults categories writeFail sumFail summarize now files initDirs
            initSide).filter (fun r => r.isPlaced)).length
      ∧ getNat S "errors"
        = ((uploadResults categories writeFail sumFail summarize now files initDirs
            initSide).filter (fun r => !r.isPlaced)).length) := by
  refine ⟨uploadsLoop_length categories writeFail sumFail summarize now files 0 initDirs initSide,
    ?_, ?_⟩
  · intro j f hj hnone
    exact uploadsLoop_get_noCategory categories writeFail sumFail summarize now
      files 0 initDirs initSide j f hj hnone
  · intro S hS
    unfold import_from_uploads at hS
    split at hS
    · exact absurd hS (by simp)
    · simp only [] at hS
      split at hS
      · exact absurd hS (by simp)
      · injection hS with hS
        subst hS
        unfold uploadResults
        obtain ⟨hA, hE⟩ := getNat_aggregateUploads_counts
          ((uploadsLoop categories writeFail sumFail summarize now files 0 initDirs initSide).1)
          upInitStats []
        constructor
        · rw [hA]
          simp [upInitStats, getNat, alookup]
        · rw [hE]
          simp [upInitStats, getNat, alookup]

/-- Witness for C2 (amended): two files, only the first mapped; the unmapped
second file's outcome is `no_category` at its own index, and the success
stats count `articles = 1` (the placed file) and `errors = 1` (the soft
skip). -/
theorem import_from_uploads_no_category_skip_witness :
    (uploadResults [("a.md", "c")] (fun _ => false) (fun _ => false) (fun s => s) "t"
        [⟨"a.md", "x"⟩, ⟨"b.md", "y"⟩] [] ⟨[], []⟩).get? 1 = some UpFileRes.noCategory
    ∧ getNat [("categories", .nat 1), ("articles", .nat 1), ("categories_created", .strs ["c"]),
        ("errors", .nat 1), ("summaries_generated", .nat 1)] "articles"
      = ((uploadResults [("a.md", "c")] (fun _ => false) (fun _ => false) (fun s => s) "t"
          [⟨"a.md", "x"⟩, ⟨"b.md", "y"⟩] [] ⟨[], []⟩).filter (fun r => r.isPlaced)).length
    ∧ getNat [("categories", .nat 1), ("articles", .nat 1), ("categories_created", .strs ["c"]),
        ("errors", .nat 1), ("summaries_generated", .nat 1)] "errors"
      = ((uploadResults [("a.md", "c")] (fun _ => false) (fun _ => false) (fun s => s) "t"
          [⟨"a.md", "x"⟩, ⟨"b.md", "y"⟩] [] ⟨[], []⟩).filter (fun r => !r.isPlaced)).length := by
  have h := import_from_uploads_no_category_skip true [⟨"a.md", "x"⟩, ⟨"b.md", "y"⟩]
    [("a.md", "c")] (fun _ => false) (fun _ => false) (fun s => s) "t" [] ⟨[], []⟩
  exact ⟨h.2.1 1 ⟨"b.md", "y"⟩ (by decide) (by decide),
    (h.2.2 _ (by decide)).1, (h.2.2 _ (by decide)).2⟩

/-! ## The fallback path of get_article is redundant

A supporting fact: under `pathlib` join semantics the fallback path
`content_root / article_id` always denotes the same segment path as the
primary `content_root / category_id / filename`, so the `alt_path` branch of
`get_article` can never resolve a file the primary lookup missed. -/

/-- Splitting on `/` distributes over an append with an explicit `/`. -/
theorem splitOnSlashAux_append (xs : List Char) :
    ∀ (ys acc : List Char),
      splitOnSlashAux (xs ++ '/' :: ys) acc
        = splitOnSlashAux xs acc ++ splitOnSlashAux ys [] := by
  induction xs with
  | nil => intro ys acc; simp [splitOnSlashAux]
  | cons c rest ih =>
    intro ys acc
    by_cases hc : c = '/'
    · subst hc
      simp only [List.cons_append, splitOnSlashAux]
      exact congrArg _ (ih ys [])
    · simp only [List.cons_append, splitOnSlashAux, hc]
      exact ih ys (c :: acc)

/-- `rsplit('/', 1)` recovers the original string around its last slash. -/
theorem pyRsplitLastSlash_data (s c f : String)
    (h : pyRsplitLastSlash s = some (c, f)) :
    s.data = c.data ++ '/' :: f.data := by
  unfold pyRsplitLastSlash at h
  rw [List.span_eq_take_drop] at h
  rcases hd : s.data.reverse.dropWhile (fun x => decide (x ≠ '/')) with _ | ⟨x, prefixRev⟩ <;>
    rw [hd] at h
  · exact absurd h (by simp)
  · simp only [Option.some.injEq, Prod.mk.injEq] at h
    obtain ⟨hc, hf⟩ := h
    have hx : x = '/' := by
      have hh := List.head?_dropWhile_not (fun x => decide (x ≠ '/')) s.data.reverse
      rw [hd] at hh
      simpa using hh
    have hsplit : s.data.reverse.takeWhile (fun x => decide (x ≠ '/')) ++ x :: prefixRev
        = s.data.reverse := by
      rw [← hd]
      exact List.takeWhile_append_dropWhile _ _
    have hrec : s.data = prefixRev.reverse
        ++ x :: (s.data.reverse.takeWhile (fun x => decide (x ≠ '/'))).reverse := by
      conv_lhs => rw [← List.reverse_reverse s.data, ← hsplit]
      simp
    rw [hrec, hx, ← hc, ← hf]

/-- For every id with a `/`, the fallback path equals the primary path. -/
theorem altPathOf_eq_primaryPathOf (article_id c f : String)
    (h : pyRsplitLastSlash article_id = some (c, f)) :
    altPathOf article_id = primaryPathOf article_id := by
  have hdata := pyRsplitLastSlash_data article_id c f h
  simp only [altPathOf, primaryPathOf, h]
  unfold pyParseSegments pySplitSlash
  rw [hdata, splitOnSlashAux_append, List.filter_append]
